import Mathlib

/-!
Verification of the WebRTC Intercom signaling server core
(`server.js`, with the diverging variants in `intercom_server.js`).

The server keeps an in-memory registry `users_` mapping a user id to a
record `{ id, name, time, queue, connection }`.  JavaScript objects with
non-numeric string keys iterate in insertion order, so the registry is
modelled as a list of user records in key-insertion order.  A held-open
long-poll response ("pending slot") is modelled by an opaque connection
identifier.  HTTP responses written during an operation are collected as
an output list; a thrown error is recorded in the result together with
whatever state had been mutated before the throw (JS exceptions do not
roll back mutations of the global `users_`).
-/

namespace Intercom

/-- Identifier of an open HTTP response (`connection.response`). -/
abbrev ConnId := Nat

/-- `{ name, old_name? }` projection broadcast to other users
(`generatePublicUser` plus the `old_name` augmentation in `registerRoute`). -/
structure PublicUser where
  name : String
  old_name : Option String
deriving DecidableEq, Repr

/-- `{ id, name, old_name? }` returned to the registering caller. -/
structure PrivateUser where
  id : String
  name : String
  old_name : Option String
deriving DecidableEq, Repr

/-- Message payloads relayed through user queues.  `server.js` enqueues
exactly these shapes: register/unregister directory events and the
offer/answer/reject signaling relays (reject's payload is the nested
`{reject: {name}}`, so only a name). -/
inductive Data where
  | registerEvt (self : PublicUser) (users : List PublicUser)
  | unregisterEvt (removed : PublicUser) (users : List PublicUser)
  | offerMsg (offer : String) (name : String)
  | answerMsg (answer : String) (name : String)
  | rejectMsg (name : String)
deriving DecidableEq, Repr

/-- user format: `{ id, name, time, queue=[], connection=undefined }`. -/
structure User where
  id : String
  name : String
  time : Nat
  queue : List Data
  conn : Option ConnId
deriving DecidableEq, Repr

/-- The global `users_` object: user records in key-insertion order. -/
abbrev Registry := List User

/-- Body of a JSON response written by the server: the bare
`writeJsonResponse(response)` (empty body), a `{messages: [...]}` batch,
or register's `{register: privateUser, users: publicUsers}`. -/
inductive RespBody where
  | empty
  | messages (batch : List Data)
  | registerResp (self : PrivateUser) (users : List PublicUser)
deriving DecidableEq, Repr

/-- One `writeJsonResponse` performed during an operation. -/
structure Output where
  conn : ConnId
  body : RespBody
deriving DecidableEq, Repr

/-- Result of running a route: the registry afterwards, the responses
written (in order), and the error thrown, if any. -/
structure RouteResult where
  st : Registry
  out : List Output
  err : Option String
deriving DecidableEq, Repr

/-- `users_[id]` object-key access. -/
def lookup (st : Registry) (id : String) : Option User :=
  st.find? (fun u => u.id == id)

/-- Key list of `users_` (`Object.keys(users_)`), in insertion order. -/
def idsOf (st : Registry) : List String :=
  st.map (·.id)

/-- In-place mutation of the record stored under a key
(e.g. `user.queue.push(..)`, `user.connection = ..`). -/
def updateUser (st : Registry) (id : String) (f : User → User) : Registry :=
  st.map (fun v => if v.id == id then f v else v)

/-- `users_[id] = user`: replace in place if the key exists (JS keeps the
key's position), otherwise append as the newest key. -/
def upsert (st : Registry) (id : String) (u : User) : Registry :=
  if (lookup st id).isSome then updateUser st id (fun _ => u) else st ++ [u]

/-- JS truthiness of the optional `old_name` string:
`if (old_name) Object.assign(..., { old_name })` drops both `undefined`
and the empty string. -/
def truthyOpt (o : Option String) : Option String :=
  match o with
  | none => none
  | some s => if s = "" then none else some s

/-- `generatePublicUser(user_id)`: `{name}` projection; `none` models the
thrown "user not found". -/
def generatePublicUser (st : Registry) (user_id : String) : Option PublicUser :=
  (lookup st user_id).map (fun u => { name := u.name, old_name := none })

/-- `generatePublicUsers(...user_ids)`: projections of the given keys, in
the given order; `none` if any key is unknown (a thrown error). -/
def generatePublicUsers (st : Registry) (user_ids : List String) : Option (List PublicUser) :=
  user_ids.mapM (generatePublicUser st)

/-- JS `String.prototype.trim`: strip whitespace from both ends
(written over the character list so the kernel can evaluate it). -/
def jsTrim (s : String) : String :=
  ⟨((s.data.dropWhile Char.isWhitespace).reverse.dropWhile Char.isWhitespace).reverse⟩

/-- JS `String.prototype.toUpperCase`, character-wise. -/
def jsToUpper (s : String) : String :=
  ⟨s.data.map Char.toUpper⟩

/-- JS `<` on strings: lexicographic comparison of code units. -/
def jsLtChars : List Char → List Char → Bool
  | [], [] => false
  | [], _ :: _ => true
  | _ :: _, [] => false
  | a :: as', b :: bs => if a < b then true else if b < a then false else jsLtChars as' bs

/-- The sort key of `sortUsersByName`: `name.toUpperCase()`. -/
def nameKey (u : PublicUser) : String :=
  jsToUpper u.name

/-- The comparator of `sortUsersByName` as a boolean "not greater":
`a < b ? -1 : a > b ? 1 : 0` on upper-cased names, so `a` stays left of
`b` unless `a`'s key is strictly greater. -/
def nameLe (a b : PublicUser) : Bool :=
  !(jsLtChars (nameKey b).data (nameKey a).data)

/-- Stable insertion of one element (used to model the stable JS
`Array.prototype.sort`): an element is placed after existing ties. -/
def insertByName (a : PublicUser) : List PublicUser → List PublicUser
  | [] => [a]
  | b :: bs => if nameLe a b then a :: b :: bs else b :: insertByName a bs

/-- `sortUsersByName(users)`: stable sort by case-insensitive name
(JS `sort` is stable; modelled as a stable insertion sort). -/
def sortUsersByName : List PublicUser → List PublicUser
  | [] => []
  | a :: as' => insertByName a (sortUsersByName as')

/-- `findUserByName(name)`: first user (in key order) with that exact name. -/
def findUserByName (st : Registry) (name : String) : Option User :=
  st.find? (fun u => u.name == name)

/-- `enqueueMessage(user_id, data)`: push onto the user's queue;
`none` models the thrown "enqueueMessage: unknown user". -/
def enqueueMessage (st : Registry) (user_id : String) (data : Data) : Option Registry :=
  match lookup st user_id with
  | none => none
  | some _ => some (updateUser st user_id (fun u => { u with queue := u.queue ++ [data] }))

/-- `sendQueue(user_id)`: if the user is long-poll parked and the queue is
non-empty, respond with the whole queue as one batch, empty the queue and
clear the slot; `none` models the thrown "sendQueue: unknown user". -/
def sendQueue (st : Registry) (user_id : String) : Option (Registry × List Output) :=
  match lookup st user_id with
  | none => none
  | some u =>
    match u.conn with
    | some c =>
      if u.queue.isEmpty then some (st, [])
      else some (updateUser st user_id (fun v => { v with queue := [], conn := none }),
                 [⟨c, RespBody.messages u.queue⟩])
    | none => some (st, [])

/-- `sendMessage(user_id, data)`: enqueue then attempt delivery; all
errors are caught (`.catch(console.error)`), keeping whatever state was
reached. -/
def sendMessage (st : Registry) (user_id : String) (data : Data) : Registry × List Output :=
  match enqueueMessage st user_id data with
  | none => (st, [])
  | some st1 =>
    match sendQueue st1 user_id with
    | none => (st1, [])
    | some r => r

/-- The loop body of `server.js`'s `sendMessageToAll` over a key snapshot:
`continue` past the excluded id, `sendMessage` to everyone else. -/
def sendToList (st : Registry) (ids : List String) (data : Data)
    (exclude : Option String) : Registry × List Output :=
  match ids with
  | [] => (st, [])
  | uid :: rest =>
    if some uid = exclude then sendToList st rest data exclude
    else
      let p := sendMessage st uid data
      let q := sendToList p.1 rest data exclude
      (q.1, p.2 ++ q.2)

/-- `sendMessageToAll(data, exclude_user_id)` in `server.js`: iterate the
registry keys in order, skipping the excluded id (`continue`). -/
def sendMessageToAll (st : Registry) (data : Data) (exclude : Option String) :
    Registry × List Output :=
  sendToList st (idsOf st) data exclude

/-- The loop body of `intercom_server.js`'s `sendMessageToAll`: on hitting
the excluded id the function RETURNS, abandoning the remaining users. -/
def sendToList_intercom (st : Registry) (ids : List String) (data : Data)
    (exclude : Option String) : Registry × List Output :=
  match ids with
  | [] => (st, [])
  | uid :: rest =>
    if some uid = exclude then (st, [])
    else
      let p := sendMessage st uid data
      let q := sendToList_intercom p.1 rest data exclude
      (q.1, p.2 ++ q.2)

/-- `sendMessageToAll(data, exclude_user_id)` in `intercom_server.js`
(and in the unnamed intermediate variant): `return`, not `continue`, at
the excluded id. -/
def sendMessageToAll_intercom (st : Registry) (data : Data) (exclude : Option String) :
    Registry × List Output :=
  sendToList_intercom st (idsOf st) data exclude

/-- The `!old_name || old_name != name` broadcast condition of
`registerRoute` (`server.js`), with JS string truthiness. -/
def renameBroadcasts (old_name : Option String) (name : String) : Bool :=
  match old_name with
  | none => true
  | some s => s == "" || s != name

/-- `registerRoute` of `server.js`.  Inputs: the `id` query value
(`""` for absent/falsy, in which case `fresh` stands for the generated
`uuidv4()`), the raw `register` name value, the request time and the
caller's response.  The duplicate-name scan rejects a name held by any
OTHER id; re-registering an existing id keeps its queue and pending
connection and rebroadcasts only if the name actually changed. -/
def registerRoute (st : Registry) (idArg fresh rawName : String) (time : Nat)
    (conn : ConnId) : RouteResult :=
  let name := jsTrim rawName
  if name = "" then ⟨st, [], some "user name required"⟩
  else
    let id := if idArg = "" then fresh else idArg
    let user? := lookup st id
    if st.any (fun v => v.name == name && id != v.id) then
      ⟨st, [], some "user name already in use"⟩
    else
      let old_name : Option String := user?.map (·.name)
      let user : User :=
        match user? with
        | some u => { u with name := name, time := time }
        | none => { id := id, name := name, time := time, queue := [], conn := none }
      let privateUser : PrivateUser := { id := id, name := name, old_name := truthyOpt old_name }
      let publicUser : PublicUser := { name := name, old_name := truthyOpt old_name }
      let others := st.filter (fun v => v.id != id)
      let publicUsers :=
        sortUsersByName ((others.map (fun v => ({ name := v.name, old_name := none } : PublicUser))) ++ [publicUser])
      let privateData := RespBody.registerResp privateUser publicUsers
      let publicData := Data.registerEvt publicUser publicUsers
      let st1 := upsert st id user
      let p :=
        if renameBroadcasts old_name name then sendMessageToAll st1 publicData (some id)
        else (st1, [])
      ⟨p.1, ⟨conn, privateData⟩ :: p.2, none⟩

/-- `unregisterRoute` of `server.js`: unknown id is an empty-success
no-op; a known id is removed, its pending long-poll (if any) is flushed
with an empty response, and `{unregister, users}` is broadcast to all
remaining users (key order, no sort) before the caller's empty success. -/
def unregisterRoute (st : Registry) (id : String) (conn : ConnId) : RouteResult :=
  if id = "" then ⟨st, [], some "user id required"⟩
  else
    match lookup st id with
    | none => ⟨st, [⟨conn, RespBody.empty⟩], none⟩
    | some u =>
      let removed : PublicUser := { name := u.name, old_name := none }
      let st1 := st.filter (fun v => v.id != id)
      let allUsers := st1.map (fun v => ({ name := v.name, old_name := none } : PublicUser))
      let data := Data.unregisterEvt removed allUsers
      let flush : List Output :=
        match u.conn with
        | some c => [⟨c, RespBody.empty⟩]
        | none => []
      let p := sendMessageToAll st1 data (some id)
      ⟨p.1, flush ++ p.2 ++ [⟨conn, RespBody.empty⟩], none⟩

/-- `offerRoute` of `server.js`: validate, resolve sender by id and
target by name, relay `{offer, name: sender's name}` via
enqueue-then-deliver, respond empty. -/
def offerRoute (st : Registry) (id offer name : String) (conn : ConnId) : RouteResult :=
  if id = "" then ⟨st, [], some "user id required"⟩
  else if offer = "" then ⟨st, [], some "offer required"⟩
  else if name = "" then ⟨st, [], some "user name required"⟩
  else
    match lookup st id with
    | none => ⟨st, [], some "user id not found"⟩
    | some fromUser =>
      match findUserByName st name with
      | none => ⟨st, [], some "user name not found"⟩
      | some toUser =>
        let p := sendMessage st toUser.id (Data.offerMsg offer fromUser.name)
        ⟨p.1, p.2 ++ [⟨conn, RespBody.empty⟩], none⟩

/-- `answerRoute` of `server.js`: symmetric to offer with an
`{answer, name}` payload. -/
def answerRoute (st : Registry) (id answer name : String) (conn : ConnId) : RouteResult :=
  if id = "" then ⟨st, [], some "user id required"⟩
  else if answer = "" then ⟨st, [], some "answer required"⟩
  else if name = "" then ⟨st, [], some "user name required"⟩
  else
    match lookup st id with
    | none => ⟨st, [], some "user id not found"⟩
    | some fromUser =>
      match findUserByName st name with
      | none => ⟨st, [], some "user name not found"⟩
      | some toUser =>
        let p := sendMessage st toUser.id (Data.answerMsg answer fromUser.name)
        ⟨p.1, p.2 ++ [⟨conn, RespBody.empty⟩], none⟩

/-- `rejectRoute` of `server.js`: like offer/answer but the payload is the
nested `{reject: {name: sender's name}}`. -/
def rejectRoute (st : Registry) (id name : String) (conn : ConnId) : RouteResult :=
  if id = "" then ⟨st, [], some "user id required"⟩
  else if name = "" then ⟨st, [], some "user name required"⟩
  else
    match lookup st id with
    | none => ⟨st, [], some "user id not found"⟩
    | some fromUser =>
      match findUserByName st name with
      | none => ⟨st, [], some "user name not found"⟩
      | some toUser =>
        let p := sendMessage st toUser.id (Data.rejectMsg fromUser.name)
        ⟨p.1, p.2 ++ [⟨conn, RespBody.empty⟩], none⟩

/-- `waitRoute` of `server.js`: a non-empty queue is drained and returned
immediately; otherwise any previously parked long-poll is first answered
with an empty body and the new connection becomes the single pending
slot. -/
def waitRoute (st : Registry) (id : String) (conn : ConnId) : RouteResult :=
  if id = "" then ⟨st, [], some "user id required"⟩
  else
    match lookup st id with
    | none => ⟨st, [], some "user not found"⟩
    | some u =>
      if u.queue.isEmpty then
        let flush : List Output :=
          match u.conn with
          | some c => [⟨c, RespBody.empty⟩]
          | none => []
        ⟨updateUser st id (fun v => { v with conn := some conn }), flush, none⟩
      else
        ⟨updateUser st id (fun v => { v with queue := [] }),
         [⟨conn, RespBody.messages u.queue⟩], none⟩

/-- `waitRoute` of `intercom_server.js`: the empty-queue branch
overwrites `user.connection` WITHOUT responding to the previously parked
long-poll, which is left hanging. -/
def waitRoute_intercom (st : Registry) (id : String) (conn : ConnId) : RouteResult :=
  if id = "" then ⟨st, [], some "user id required"⟩
  else
    match lookup st id with
    | none => ⟨st, [], some "user not found"⟩
    | some u =>
      if u.queue.isEmpty then
        ⟨updateUser st id (fun v => { v with conn := some conn }), [], none⟩
      else
        ⟨updateUser st id (fun v => { v with queue := [] }),
         [⟨conn, RespBody.messages u.queue⟩], none⟩

/-- `registerRoute` of `intercom_server.js`: the duplicate-name scan runs
only for a NEW id (a rename never checks), there is no `old_name`
tracking, the public list is built from ALL current keys plus the new
projection, and the broadcast (with the `return`-style fan-out) happens
unconditionally. -/
def registerRoute_intercom (st : Registry) (idArg fresh rawName : String) (time : Nat)
    (conn : ConnId) : RouteResult :=
  let name := jsTrim rawName
  if name = "" then ⟨st, [], some "user name required"⟩
  else
    let id := if idArg = "" then fresh else idArg
    match lookup st id with
    | some u =>
      let user : User := { u with name := name, time := time }
      let publicUser : PublicUser := { name := name, old_name := none }
      let publicUsers :=
        sortUsersByName ((st.map (fun v => ({ name := v.name, old_name := none } : PublicUser))) ++ [publicUser])
      let privateData := RespBody.registerResp { id := id, name := name, old_name := none } publicUsers
      let publicData := Data.registerEvt publicUser publicUsers
      let st1 := upsert st id user
      let p := sendMessageToAll_intercom st1 publicData (some id)
      ⟨p.1, ⟨conn, privateData⟩ :: p.2, none⟩
    | none =>
      if st.any (fun v => v.name == name) then
        ⟨st, [], some "user name already in use"⟩
      else
        let user : User := { id := id, name := name, time := time, queue := [], conn := none }
        let publicUser : PublicUser := { name := name, old_name := none }
        let publicUsers :=
          sortUsersByName ((st.map (fun v => ({ name := v.name, old_name := none } : PublicUser))) ++ [publicUser])
        let privateData := RespBody.registerResp { id := id, name := name, old_name := none } publicUsers
        let publicData := Data.registerEvt publicUser publicUsers
        let st1 := upsert st id user
        let p := sendMessageToAll_intercom st1 publicData (some id)
        ⟨p.1, ⟨conn, privateData⟩ :: p.2, none⟩

/-- One of the six directory operations of `server.js`, with the request
parameters it reads (a `""` string models an absent/falsy query value;
for register, `fresh` stands for the freshly generated uuid). -/
inductive Op where
  | register (idArg fresh rawName : String) (time : Nat) (conn : ConnId)
  | unregister (id : String) (conn : ConnId)
  | offer (id offer name : String) (conn : ConnId)
  | answer (id answer name : String) (conn : ConnId)
  | reject (id name : String) (conn : ConnId)
  | wait (id : String) (conn : ConnId)
deriving DecidableEq, Repr

/-- Dispatch one directory operation of `server.js`. -/
def runRoute (st : Registry) : Op → RouteResult
  | Op.register idArg fresh rawName time conn => registerRoute st idArg fresh rawName time conn
  | Op.unregister id conn => unregisterRoute st id conn
  | Op.offer id offer name conn => offerRoute st id offer name conn
  | Op.answer id answer name conn => answerRoute st id answer name conn
  | Op.reject id name conn => rejectRoute st id name conn
  | Op.wait id conn => waitRoute st id conn

/-- The registry after one operation (a thrown error keeps whatever state
the route reached). -/
def runOp (st : Registry) (op : Op) : Registry :=
  (runRoute st op).st

/-- The registry reached from the empty `users_` by a sequence of
directory operations. -/
def runOps (ops : List Op) : Registry :=
  ops.foldl runOp []

/-- The recognized operation keys of the root route. -/
inductive OpKey where
  | register
  | unregister
  | offer
  | answer
  | reject
  | wait
deriving DecidableEq, Repr

/-- Position of a key in the `dataRoutes_` literal of `server.js`; JS
`for..in` over its non-numeric string keys iterates in this insertion
order. -/
def keyPrio : OpKey → Nat
  | OpKey.register => 0
  | OpKey.unregister => 1
  | OpKey.offer => 2
  | OpKey.answer => 3
  | OpKey.reject => 4
  | OpKey.wait => 5

/-- The parameter set of a root-route request: which recognized operation
keys are present (`connection.query.hasOwnProperty(key)`), with their raw
string values. -/
structure Request where
  register : Option String
  unregister : Option String
  offer : Option String
  answer : Option String
  reject : Option String
  wait : Option String
deriving DecidableEq, Repr

/-- `connection.query.hasOwnProperty(key)` for a recognized key. -/
def hasKey (q : Request) : OpKey → Bool
  | OpKey.register => q.register.isSome
  | OpKey.unregister => q.unregister.isSome
  | OpKey.offer => q.offer.isSome
  | OpKey.answer => q.answer.isSome
  | OpKey.reject => q.reject.isSome
  | OpKey.wait => q.wait.isSome

/-- `rootRoute`'s dispatch scan: the first key of `dataRoutes_` (in
insertion order) present on the request wins. -/
def chooseOp (q : Request) : Option OpKey :=
  if q.register.isSome then some OpKey.register
  else if q.unregister.isSome then some OpKey.unregister
  else if q.offer.isSome then some OpKey.offer
  else if q.answer.isSome then some OpKey.answer
  else if q.reject.isSome then some OpKey.reject
  else if q.wait.isSome then some OpKey.wait
  else none

/-- `rootRoute`: dispatch to the winning key, or throw
"unknown request parameters" when no recognized key is present. -/
def rootRouteSelect (q : Request) : Except String OpKey :=
  match chooseOp q with
  | some k => Except.ok k
  | none => Except.error "unknown request parameters"

/-- The `{unregister: removed-user-projection, users: all_users}` payload
`unregisterRoute` broadcasts after removing user `u` (looked up under
`id`): the `users` list is the remaining registry in key order, with no
sorting step. -/
def unregisterData (st : Registry) (id : String) (u : User) : Data :=
  Data.unregisterEvt { name := u.name, old_name := none }
    ((st.filter (fun v => v.id != id)).map
      (fun v => ({ name := v.name, old_name := none } : PublicUser)))

/-- The per-user steady-state invariant: a non-empty queue is never held
together with a parked long-poll connection. -/
def InvQS (st : Registry) : Prop :=
  ∀ u ∈ st, u.queue ≠ [] → u.conn = none

/-- Well-formedness of the registry: object keys are unique. -/
def WF (st : Registry) : Prop :=
  (idsOf st).Nodup

/-- Registered names are pairwise distinct across distinct ids. -/
def NamesUnique (st : Registry) : Prop :=
  ∀ v ∈ st, ∀ w ∈ st, v.id ≠ w.id → v.name ≠ w.name

/-- The (id, name) projection of the registry: message relay and
broadcast never change it, only register/unregister do. -/
def pairsOf (st : Registry) : List (String × String) :=
  st.map (fun u => (u.id, u.name))

theorem lookup_eq_some {st : Registry} {id : String} {u : User}
    (h : lookup st id = some u) : u ∈ st ∧ u.id = id := by
  refine ⟨List.mem_of_find?_eq_some h, ?_⟩
  have := List.find?_some h
  simpa using this

theorem lookup_eq_none_iff {st : Registry} {id : String} :
    lookup st id = none ↔ ∀ u ∈ st, u.id ≠ id := by
  unfold lookup
  rw [List.find?_eq_none]
  simp

theorem lookup_of_mem {st : Registry} {u : User}
    (hwf : WF st) (hu : u ∈ st) : lookup st u.id = some u := by
  induction st with
  | nil => cases hu
  | cons v st ih =>
    unfold WF idsOf at hwf
    simp only [List.map_cons, List.nodup_cons] at hwf
    rcases List.mem_cons.mp hu with rfl | hmem
    · simp [lookup]
    · have hne : v.id ≠ u.id := by
        intro he
        exact hwf.1 (he ▸ List.mem_map_of_mem (·.id) hmem)
      have : lookup st u.id = some u := ih hwf.2 hmem
      simp only [lookup, List.find?_cons] at *
      have hb : (v.id == u.id) = false := by simpa using hne
      rw [hb]
      exact this

theorem beq_false_of_ne {a b : String} (h : a ≠ b) : (a == b) = false :=
  beq_eq_false_iff_ne.mpr h

theorem idsOf_updateUser {st : Registry} {id : String} {f : User → User}
    (hf : ∀ v, v.id = id → (f v).id = v.id) :
    idsOf (updateUser st id f) = idsOf st := by
  unfold idsOf updateUser
  rw [List.map_map]
  apply List.map_congr_left
  intro v _
  by_cases h : v.id = id
  · simp [h, hf v h]
  · simp [h]

theorem lookup_updateUser_self {st : Registry} {id : String} {f : User → User}
    (hf : ∀ v, v.id = id → (f v).id = v.id) :
    lookup (updateUser st id f) id = (lookup st id).map f := by
  induction st with
  | nil => simp [lookup, updateUser]
  | cons v st ih =>
    by_cases h : v.id = id
    · simp [lookup, updateUser, List.find?_cons, h, hf v h]
    · simp only [lookup, updateUser, List.map_cons, List.find?_cons] at *
      have hb : (v.id == id) = false := by simpa using h
      rw [hb]
      simpa [hb] using ih

theorem lookup_updateUser_ne {st : Registry} {id id' : String} {f : User → User}
    (hf : ∀ v, v.id = id → (f v).id = v.id) (hne : id' ≠ id) :
    lookup (updateUser st id f) id' = lookup st id' := by
  induction st with
  | nil => simp [lookup, updateUser]
  | cons v st ih =>
    simp only [updateUser, List.map_cons, lookup] at ih ⊢
    by_cases h : v.id = id
    · have h2 : ((f v).id == id') = false := by
        rw [hf v h, h]
        exact beq_false_of_ne (Ne.symm hne)
      have h4 : (v.id == id') = false := by
        rw [h]
        exact beq_false_of_ne (Ne.symm hne)
      rw [if_pos (by simpa using h)]
      rw [List.find?_cons_of_neg _ (by simp [h2]), List.find?_cons_of_neg _ (by simp [h4])]
      exact ih
    · rw [if_neg (by simpa using h)]
      by_cases h4 : v.id = id'
      · rw [List.find?_cons_of_pos _ (by simp [h4]), List.find?_cons_of_pos _ (by simp [h4])]
      · rw [List.find?_cons_of_neg _ (by simp [h4]), List.find?_cons_of_neg _ (by simp [h4])]
        exact ih

theorem mem_updateUser {st : Registry} {id : String} {f : User → User} {w : User}
    (hw : w ∈ updateUser st id f) :
    ∃ v ∈ st, (v.id ≠ id ∧ w = v) ∨ (v.id = id ∧ w = f v) := by
  unfold updateUser at hw
  rcases List.mem_map.mp hw with ⟨v, hv, hw⟩
  refine ⟨v, hv, ?_⟩
  by_cases h : v.id = id
  · right
    refine ⟨h, ?_⟩
    simp [h] at hw
    exact hw.symm
  · left
    refine ⟨h, ?_⟩
    have hb : (v.id == id) = false := by simpa using h
    rw [hb] at hw
    simp at hw
    exact hw.symm

theorem lookup_upsert_self {st : Registry} {id : String} {u : User}
    (hu : u.id = id) : lookup (upsert st id u) id = some u := by
  unfold upsert
  by_cases h : (lookup st id).isSome
  · rw [if_pos h]
    rw [lookup_updateUser_self (fun v hv => hu.trans hv.symm)]
    rcases Option.isSome_iff_exists.mp h with ⟨w, hw⟩
    rw [hw]
    rfl
  · rw [if_neg h]
    unfold lookup at *
    rw [List.find?_append]
    rw [Option.not_isSome_iff_eq_none] at h
    rw [h]
    simp [hu]

theorem lookup_upsert_ne {st : Registry} {id id' : String} {u : User}
    (hu : u.id = id) (hne : id' ≠ id) :
    lookup (upsert st id u) id' = lookup st id' := by
  unfold upsert
  by_cases h : (lookup st id).isSome
  · rw [if_pos h]
    exact lookup_updateUser_ne (fun v hv => hu.trans hv.symm) hne
  · rw [if_neg h]
    unfold lookup
    rw [List.find?_append]
    have hb : (u.id == id') = false := by
      rw [hu]
      exact beq_false_of_ne (Ne.symm hne)
    simp [hb]

theorem WF_updateUser {st : Registry} {id : String} {f : User → User}
    (hf : ∀ v, v.id = id → (f v).id = v.id) (hwf : WF st) :
    WF (updateUser st id f) := by
  unfold WF
  rw [idsOf_updateUser hf]
  exact hwf

theorem WF_upsert {st : Registry} {id : String} {u : User}
    (hu : u.id = id) (hwf : WF st) : WF (upsert st id u) := by
  unfold upsert
  by_cases h : (lookup st id).isSome
  · rw [if_pos h]
    exact WF_updateUser (fun v hv => hu.trans hv.symm) hwf
  · rw [if_neg h]
    unfold WF idsOf at *
    rw [List.map_append]
    simp only [List.map_cons, List.map_nil]
    rw [List.nodup_append]
    refine ⟨hwf, List.nodup_singleton _, ?_⟩
    intro x hx
    simp only [List.mem_singleton]
    intro he
    rw [Option.not_isSome_iff_eq_none] at h
    rcases List.mem_map.mp hx with ⟨v, hv, rfl⟩
    exact (lookup_eq_none_iff.mp h v hv) (he.trans hu)

theorem WF_filter {st : Registry} (p : User → Bool) (hwf : WF st) :
    WF (st.filter p) := by
  unfold WF idsOf at *
  exact ((List.filter_sublist st).map (·.id)).nodup hwf

theorem lookup_filter_ne {st : Registry} {id : String} {v : User}
    (hwf : WF st) (hv : v ∈ st) (hne : v.id ≠ id) :
    lookup (st.filter (fun w => w.id != id)) v.id = some v := by
  apply lookup_of_mem (WF_filter _ hwf)
  rw [List.mem_filter]
  exact ⟨hv, by simpa using hne⟩

theorem updateUser_updateUser {st : Registry} {id : String} {f g : User → User}
    (hf : ∀ v, v.id = id → (f v).id = v.id) :
    updateUser (updateUser st id f) id g = updateUser st id (fun v => g (f v)) := by
  unfold updateUser
  rw [List.map_map]
  apply List.map_congr_left
  intro v _
  by_cases h : v.id = id
  · simp [h, hf v h]
  · simp [h]

theorem InvQS_updateUser {st : Registry} {id : String} {f : User → User}
    (hinv : InvQS st)
    (hok : ∀ v ∈ st, v.id = id → (f v).queue ≠ [] → (f v).conn = none) :
    InvQS (updateUser st id f) := by
  intro w hw
  rcases mem_updateUser hw with ⟨v, hv, hcase⟩
  rcases hcase with ⟨hne2, he⟩ | ⟨hvid, he⟩
  · subst he
    exact hinv _ hv
  · subst he
    exact hok _ hv hvid

theorem sendMessage_eq_of_none {st : Registry} {uid : String} {d : Data}
    (h : lookup st uid = none) : sendMessage st uid d = (st, []) := by
  unfold sendMessage enqueueMessage
  rw [h]

theorem sendMessage_eq_of_connNone {st : Registry} {uid : String} {u : User} {d : Data}
    (hu : lookup st uid = some u) (hc : u.conn = none) :
    sendMessage st uid d =
      (updateUser st uid (fun v => { v with queue := v.queue ++ [d] }), []) := by
  unfold sendMessage enqueueMessage
  rw [hu]
  simp only
  unfold sendQueue
  rw [lookup_updateUser_self (by intro v hv; rfl), hu]
  simp only [Option.map_some']
  rw [hc]

theorem sendMessage_eq_of_connSome {st : Registry} {uid : String} {u : User} {c : ConnId}
    {d : Data} (hu : lookup st uid = some u) (hc : u.conn = some c) :
    sendMessage st uid d =
      (updateUser st uid (fun v => { v with queue := [], conn := none }),
       [⟨c, RespBody.messages (u.queue ++ [d])⟩]) := by
  unfold sendMessage enqueueMessage
  rw [hu]
  simp only
  unfold sendQueue
  rw [lookup_updateUser_self (by intro v hv; rfl), hu]
  simp only [Option.map_some']
  rw [hc]
  simp only [List.isEmpty_eq_true]
  rw [if_neg (show ¬(u.queue ++ [d] = []) by simp)]
  rw [updateUser_updateUser (by intro v hv; rfl)]

theorem sendMessage_lookup_ne {st : Registry} {uid w : String} {d : Data}
    (hne : w ≠ uid) : lookup (sendMessage st uid d).1 w = lookup st w := by
  cases hlk : lookup st uid with
  | none => rw [sendMessage_eq_of_none hlk]
  | some u =>
    cases hc : u.conn with
    | none =>
      rw [sendMessage_eq_of_connNone hlk hc]
      exact lookup_updateUser_ne (by intro v hv; rfl) hne
    | some c =>
      rw [sendMessage_eq_of_connSome hlk hc]
      exact lookup_updateUser_ne (by intro v hv; rfl) hne

theorem sendMessage_idsOf {st : Registry} {uid : String} {d : Data} :
    idsOf (sendMessage st uid d).1 = idsOf st := by
  cases hlk : lookup st uid with
  | none => rw [sendMessage_eq_of_none hlk]
  | some u =>
    cases hc : u.conn with
    | none =>
      rw [sendMessage_eq_of_connNone hlk hc]
      exact idsOf_updateUser (by intro v hv; rfl)
    | some c =>
      rw [sendMessage_eq_of_connSome hlk hc]
      exact idsOf_updateUser (by intro v hv; rfl)

theorem sendMessage_WF {st : Registry} {uid : String} {d : Data}
    (hwf : WF st) : WF (sendMessage st uid d).1 := by
  unfold WF
  rw [sendMessage_idsOf]
  exact hwf

theorem sendMessage_InvQS {st : Registry} {uid : String} {d : Data}
    (hwf : WF st) (hinv : InvQS st) : InvQS (sendMessage st uid d).1 := by
  cases hlk : lookup st uid with
  | none =>
    rw [sendMessage_eq_of_none hlk]
    exact hinv
  | some u =>
    cases hc : u.conn with
    | none =>
      rw [sendMessage_eq_of_connNone hlk hc]
      apply InvQS_updateUser hinv
      intro v hv hvid _
      have : lookup st uid = some v := hvid ▸ lookup_of_mem hwf hv
      have hvu : v = u := by
        rw [this] at hlk
        exact (Option.some.injEq _ _ ▸ hlk)
      simpa [hvu] using hc
    | some c =>
      rw [sendMessage_eq_of_connSome hlk hc]
      apply InvQS_updateUser hinv
      intro v _ _ hq
      simp at hq

theorem sendToList_idsOf {ids : List String} {st : Registry} {d : Data}
    {ex : Option String} : idsOf (sendToList st ids d ex).1 = idsOf st := by
  induction ids generalizing st with
  | nil => rfl
  | cons a rest ih =>
    unfold sendToList
    by_cases h : some a = ex
    · rw [if_pos h]
      exact ih
    · rw [if_neg h]
      simp only
      rw [ih, sendMessage_idsOf]

theorem sendToList_WF {ids : List String} {st : Registry} {d : Data}
    {ex : Option String} (hwf : WF st) : WF (sendToList st ids d ex).1 := by
  unfold WF
  rw [sendToList_idsOf]
  exact hwf

theorem sendToList_InvQS {ids : List String} {st : Registry} {d : Data}
    {ex : Option String} (hwf : WF st) (hinv : InvQS st) :
    InvQS (sendToList st ids d ex).1 := by
  induction ids generalizing st with
  | nil => exact hinv
  | cons a rest ih =>
    unfold sendToList
    by_cases h : some a = ex
    · rw [if_pos h]
      exact ih hwf hinv
    · rw [if_neg h]
      simp only
      exact ih (sendMessage_WF hwf) (sendMessage_InvQS hwf hinv)

theorem sendToList_lookup_skip {ids : List String} {st : Registry} {d : Data}
    {ex : Option String} {uid : String} (h : uid ∉ ids ∨ some uid = ex) :
    lookup (sendToList st ids d ex).1 uid = lookup st uid := by
  induction ids generalizing st with
  | nil => rfl
  | cons a rest ih =>
    unfold sendToList
    by_cases hx : some a = ex
    · rw [if_pos hx]
      apply ih
      rcases h with h | h
      · exact Or.inl (fun hm => h (List.mem_cons_of_mem _ hm))
      · exact Or.inr h
    · rw [if_neg hx]
      simp only
      have hne : uid ≠ a := by
        rcases h with h | h
        · exact fun he => h (he ▸ List.mem_cons_self a rest)
        · exact fun he => hx (he ▸ h)
      have hrec : uid ∉ rest ∨ some uid = ex := by
        rcases h with h | h
        · exact Or.inl (fun hm => h (List.mem_cons_of_mem _ hm))
        · exact Or.inr h
      rw [ih hrec, sendMessage_lookup_ne hne]

theorem sendToList_deliver_connNone {ids : List String} {st : Registry} {d : Data}
    {ex : Option String} {uid : String} {u : User}
    (hnd : ids.Nodup) (hmem : uid ∈ ids) (hex : some uid ≠ ex)
    (hu : lookup st uid = some u) (hc : u.conn = none) :
    lookup (sendToList st ids d ex).1 uid = some { u with queue := u.queue ++ [d] } := by
  induction ids generalizing st with
  | nil => cases hmem
  | cons a rest ih =>
    unfold sendToList
    rcases List.mem_cons.mp hmem with rfl | hmem'
    · rw [if_neg hex]
      simp only
      have hnotin : uid ∉ rest := (List.nodup_cons.mp hnd).1
      rw [sendToList_lookup_skip (Or.inl hnotin)]
      rw [sendMessage_eq_of_connNone hu hc]
      simp only
      rw [lookup_updateUser_self (by intro v hv; rfl), hu]
      rfl
    · by_cases hx : some a = ex
      · rw [if_pos hx]
        exact ih (List.nodup_cons.mp hnd).2 hmem' hu
      · rw [if_neg hx]
        simp only
        have hne : uid ≠ a := by
          intro he
          exact (List.nodup_cons.mp hnd).1 (he ▸ hmem')
        exact ih (List.nodup_cons.mp hnd).2 hmem'
          ((sendMessage_lookup_ne hne).trans hu)

theorem sendToList_deliver_connSome {ids : List String} {st : Registry} {d : Data}
    {ex : Option String} {uid : String} {u : User} {c : ConnId}
    (hnd : ids.Nodup) (hmem : uid ∈ ids) (hex : some uid ≠ ex)
    (hu : lookup st uid = some u) (hc : u.conn = some c) :
    lookup (sendToList st ids d ex).1 uid = some { u with queue := [], conn := none } ∧
    (⟨c, RespBody.messages (u.queue ++ [d])⟩ : Output) ∈ (sendToList st ids d ex).2 := by
  induction ids generalizing st with
  | nil => cases hmem
  | cons a rest ih =>
    unfold sendToList
    rcases List.mem_cons.mp hmem with rfl | hmem'
    · rw [if_neg hex]
      simp only
      have hnotin : uid ∉ rest := (List.nodup_cons.mp hnd).1
      constructor
      · rw [sendToList_lookup_skip (Or.inl hnotin)]
        rw [sendMessage_eq_of_connSome hu hc]
        simp only
        rw [lookup_updateUser_self (by intro v hv; rfl), hu]
        rfl
      · apply List.mem_append_left
        rw [sendMessage_eq_of_connSome hu hc]
        exact List.mem_singleton.mpr rfl
    · by_cases hx : some a = ex
      · rw [if_pos hx]
        exact ih (List.nodup_cons.mp hnd).2 hmem' hu
      · rw [if_neg hx]
        simp only
        have hne : uid ≠ a := by
          intro he
          exact (List.nodup_cons.mp hnd).1 (he ▸ hmem')
        have h2 : lookup (sendMessage st a d).1 uid = some u :=
          (sendMessage_lookup_ne hne).trans hu
        have h3 := ih (List.nodup_cons.mp hnd).2 hmem' h2
        exact ⟨h3.1, List.mem_append_right _ h3.2⟩

theorem mem_upsert {st : Registry} {id : String} {u w : User}
    (hw : w ∈ upsert st id u) : w ∈ st ∨ w = u := by
  unfold upsert at hw
  by_cases h : (lookup st id).isSome
  · rw [if_pos h] at hw
    rcases mem_updateUser hw with ⟨v, hv, hcase⟩
    rcases hcase with ⟨_, he⟩ | ⟨_, he⟩
    · exact Or.inl (he ▸ hv)
    · exact Or.inr he
  · rw [if_neg h] at hw
    rcases List.mem_append.mp hw with h1 | h1
    · exact Or.inl h1
    · exact Or.inr (List.mem_singleton.mp h1)

theorem InvQS_upsert {st : Registry} {id : String} {u : User}
    (hinv : InvQS st) (hok : u.queue ≠ [] → u.conn = none) :
    InvQS (upsert st id u) := by
  intro w hw
  rcases mem_upsert hw with h | rfl
  · exact hinv w h
  · exact hok

theorem InvQS_filter {st : Registry} (p : User → Bool)
    (hinv : InvQS st) : InvQS (st.filter p) :=
  fun w hw => hinv w (List.mem_of_mem_filter hw)

theorem WF_InvQS_ifBroadcast {st1 : Registry} {d : Data} {ex : Option String} {b : Bool}
    (hwf1 : WF st1) (hinv1 : InvQS st1) :
    WF (if b then sendMessageToAll st1 d ex else (st1, [])).1 ∧
    InvQS (if b then sendMessageToAll st1 d ex else (st1, [])).1 := by
  cases b with
  | false => exact ⟨hwf1, hinv1⟩
  | true =>
    simp only [if_true]
    exact ⟨sendToList_WF hwf1, sendToList_InvQS hwf1 hinv1⟩

theorem registerRoute_preserves {st : Registry} {idArg fresh rawName : String}
    {time : Nat} {conn : ConnId} (hwf : WF st) (hinv : InvQS st) :
    WF (registerRoute st idArg fresh rawName time conn).st ∧
    InvQS (registerRoute st idArg fresh rawName time conn).st := by
  unfold registerRoute
  by_cases h1 : jsTrim rawName = ""
  · rw [if_pos h1]
    exact ⟨hwf, hinv⟩
  · rw [if_neg h1]
    simp only
    by_cases h2 : st.any fun v =>
        v.name == jsTrim rawName && (if idArg = "" then fresh else idArg) != v.id
    · rw [if_pos h2]
      exact ⟨hwf, hinv⟩
    · rw [if_neg h2]
      simp only
      cases hlk : lookup st (if idArg = "" then fresh else idArg) with
      | none =>
        exact WF_InvQS_ifBroadcast (WF_upsert rfl hwf)
          (InvQS_upsert hinv (fun h => absurd rfl h))
      | some u0 =>
        exact WF_InvQS_ifBroadcast (WF_upsert (lookup_eq_some hlk).2 hwf)
          (InvQS_upsert hinv (fun hq => hinv u0 (lookup_eq_some hlk).1 hq))

theorem unregisterRoute_preserves {st : Registry} {id : String} {conn : ConnId}
    (hwf : WF st) (hinv : InvQS st) :
    WF (unregisterRoute st id conn).st ∧ InvQS (unregisterRoute st id conn).st := by
  unfold unregisterRoute
  by_cases h1 : id = ""
  · rw [if_pos h1]
    exact ⟨hwf, hinv⟩
  · rw [if_neg h1]
    cases hlk : lookup st id with
    | none => exact ⟨hwf, hinv⟩
    | some u =>
      simp only
      have hwf1 := WF_filter (fun v => v.id != id) hwf
      have hinv1 := InvQS_filter (fun v => v.id != id) hinv
      exact ⟨sendToList_WF hwf1, sendToList_InvQS hwf1 hinv1⟩

theorem offerRoute_preserves {st : Registry} {id offer name : String} {conn : ConnId}
    (hwf : WF st) (hinv : InvQS st) :
    WF (offerRoute st id offer name conn).st ∧ InvQS (offerRoute st id offer name conn).st := by
  unfold offerRoute
  by_cases h1 : id = ""
  · rw [if_pos h1]
    exact ⟨hwf, hinv⟩
  · rw [if_neg h1]
    by_cases h2 : offer = ""
    · rw [if_pos h2]
      exact ⟨hwf, hinv⟩
    · rw [if_neg h2]
      by_cases h3 : name = ""
      · rw [if_pos h3]
        exact ⟨hwf, hinv⟩
      · rw [if_neg h3]
        cases lookup st id with
        | none => exact ⟨hwf, hinv⟩
        | some fromUser =>
          cases findUserByName st name with
          | none => exact ⟨hwf, hinv⟩
          | some toUser =>
            exact ⟨sendMessage_WF hwf, sendMessage_InvQS hwf hinv⟩

theorem answerRoute_preserves {st : Registry} {id answer name : String} {conn : ConnId}
    (hwf : WF st) (hinv : InvQS st) :
    WF (answerRoute st id answer name conn).st ∧
    InvQS (answerRoute st id answer name conn).st := by
  unfold answerRoute
  by_cases h1 : id = ""
  · rw [if_pos h1]
    exact ⟨hwf, hinv⟩
  · rw [if_neg h1]
    by_cases h2 : answer = ""
    · rw [if_pos h2]
      exact ⟨hwf, hinv⟩
    · rw [if_neg h2]
      by_cases h3 : name = ""
      · rw [if_pos h3]
        exact ⟨hwf, hinv⟩
      · rw [if_neg h3]
        cases lookup st id with
        | none => exact ⟨hwf, hinv⟩
        | some fromUser =>
          cases findUserByName st name with
          | none => exact ⟨hwf, hinv⟩
          | some toUser =>
            exact ⟨sendMessage_WF hwf, sendMessage_InvQS hwf hinv⟩

theorem rejectRoute_preserves {st : Registry} {id name : String} {conn : ConnId}
    (hwf : WF st) (hinv : InvQS st) :
    WF (rejectRoute st id name conn).st ∧ InvQS (rejectRoute st id name conn).st := by
  unfold rejectRoute
  by_cases h1 : id = ""
  · rw [if_pos h1]
    exact ⟨hwf, hinv⟩
  · rw [if_neg h1]
    by_cases h3 : name = ""
    · rw [if_pos h3]
      exact ⟨hwf, hinv⟩
    · rw [if_neg h3]
      cases lookup st id with
      | none => exact ⟨hwf, hinv⟩
      | some fromUser =>
        cases findUserByName st name with
        | none => exact ⟨hwf, hinv⟩
        | some toUser =>
          exact ⟨sendMessage_WF hwf, sendMessage_InvQS hwf hinv⟩

theorem waitRoute_preserves {st : Registry} {id : String} {conn : ConnId}
    (hwf : WF st) (hinv : InvQS st) :
    WF (waitRoute st id conn).st ∧ InvQS (waitRoute st id conn).st := by
  unfold waitRoute
  by_cases h1 : id = ""
  · rw [if_pos h1]
    exact ⟨hwf, hinv⟩
  · rw [if_neg h1]
    cases hlk : lookup st id with
    | none => exact ⟨hwf, hinv⟩
    | some u =>
      simp only
      by_cases hq : u.queue.isEmpty
      · rw [if_pos hq]
        refine ⟨WF_updateUser (by intro v hv; rfl) hwf, ?_⟩
        apply InvQS_updateUser hinv
        intro v hv hvid hq2
        exfalso
        have : lookup st id = some v := hvid ▸ lookup_of_mem hwf hv
        rw [hlk] at this
        have hv_eq : u = v := by
          simpa using this
        rw [← hv_eq] at hq2
        have : u.queue = [] := by simpa [List.isEmpty_iff] using hq
        exact hq2 this
      · rw [if_neg hq]
        refine ⟨WF_updateUser (by intro v hv; rfl) hwf, ?_⟩
        apply InvQS_updateUser hinv
        intro v hv hvid hq2
        exfalso
        exact hq2 rfl

theorem runOp_preserves {st : Registry} (op : Op) (hwf : WF st) (hinv : InvQS st) :
    WF (runOp st op) ∧ InvQS (runOp st op) := by
  cases op with
  | register idArg fresh rawName time conn => exact registerRoute_preserves hwf hinv
  | unregister id conn => exact unregisterRoute_preserves hwf hinv
  | offer id offer name conn => exact offerRoute_preserves hwf hinv
  | answer id answer name conn => exact answerRoute_preserves hwf hinv
  | reject id name conn => exact rejectRoute_preserves hwf hinv
  | wait id conn => exact waitRoute_preserves hwf hinv

theorem foldl_runOp_preserves (ops : List Op) :
    ∀ st : Registry, WF st → InvQS st →
      WF (ops.foldl runOp st) ∧ InvQS (ops.foldl runOp st) := by
  induction ops with
  | nil => exact fun st hwf hinv => ⟨hwf, hinv⟩
  | cons op ops ih =>
    intro st hwf hinv
    have h := runOp_preserves op hwf hinv
    exact ih _ h.1 h.2

theorem runOps_WF (ops : List Op) : WF (runOps ops) :=
  (foldl_runOp_preserves ops [] (by simp [WF, idsOf]) (by intro u hu; cases hu)).1

theorem runOps_InvQS (ops : List Op) : InvQS (runOps ops) :=
  (foldl_runOp_preserves ops [] (by simp [WF, idsOf]) (by intro u hu; cases hu)).2

theorem registerRoute_err_frame {st : Registry} {idArg fresh rawName : String}
    {time : Nat} {conn : ConnId} {e : String}
    (h : (registerRoute st idArg fresh rawName time conn).err = some e) :
    (registerRoute st idArg fresh rawName time conn).st = st ∧
    (registerRoute st idArg fresh rawName time conn).out = [] := by
  unfold registerRoute at h ⊢
  by_cases h1 : jsTrim rawName = ""
  · rw [if_pos h1]
    exact ⟨rfl, rfl⟩
  · rw [if_neg h1] at h ⊢
    simp only at h ⊢
    by_cases h2 : st.any fun v =>
        v.name == jsTrim rawName && (if idArg = "" then fresh else idArg) != v.id
    · rw [if_pos h2]
      exact ⟨rfl, rfl⟩
    · rw [if_neg h2] at h ⊢
      simp only at h ⊢
      cases hlk : lookup st (if idArg = "" then fresh else idArg) <;> simp [hlk] at h

theorem unregisterRoute_err_frame {st : Registry} {id : String} {conn : ConnId} {e : String}
    (h : (unregisterRoute st id conn).err = some e) :
    (unregisterRoute st id conn).st = st ∧ (unregisterRoute st id conn).out = [] := by
  unfold unregisterRoute at h ⊢
  by_cases h1 : id = ""
  · rw [if_pos h1]
    exact ⟨rfl, rfl⟩
  · rw [if_neg h1] at h ⊢
    cases hlk : lookup st id <;> simp [hlk] at h

theorem offerRoute_err_frame {st : Registry} {id offer name : String} {conn : ConnId}
    {e : String} (h : (offerRoute st id offer name conn).err = some e) :
    (offerRoute st id offer name conn).st = st ∧
    (offerRoute st id offer name conn).out = [] := by
  unfold offerRoute at h ⊢
  by_cases h1 : id = ""
  · rw [if_pos h1]
    exact ⟨rfl, rfl⟩
  · rw [if_neg h1] at h ⊢
    by_cases h2 : offer = ""
    · rw [if_pos h2]
      exact ⟨rfl, rfl⟩
    · rw [if_neg h2] at h ⊢
      by_cases h3 : name = ""
      · rw [if_pos h3]
        exact ⟨rfl, rfl⟩
      · rw [if_neg h3] at h ⊢
        cases hlk : lookup st id
        · exact ⟨rfl, rfl⟩
        · cases hfn : findUserByName st name
          · exact ⟨rfl, rfl⟩
          · simp [hlk, hfn] at h

theorem answerRoute_err_frame {st : Registry} {id answer name : String} {conn : ConnId}
    {e : String} (h : (answerRoute st id answer name conn).err = some e) :
    (answerRoute st id answer name conn).st = st ∧
    (answerRoute st id answer name conn).out = [] := by
  unfold answerRoute at h ⊢
  by_cases h1 : id = ""
  · rw [if_pos h1]
    exact ⟨rfl, rfl⟩
  · rw [if_neg h1] at h ⊢
    by_cases h2 : answer = ""
    · rw [if_pos h2]
      exact ⟨rfl, rfl⟩
    · rw [if_neg h2] at h ⊢
      by_cases h3 : name = ""
      · rw [if_pos h3]
        exact ⟨rfl, rfl⟩
      · rw [if_neg h3] at h ⊢
        cases hlk : lookup st id
        · exact ⟨rfl, rfl⟩
        · cases hfn : findUserByName st name
          · exact ⟨rfl, rfl⟩
          · simp [hlk, hfn] at h

theorem rejectRoute_err_frame {st : Registry} {id name : String} {conn : ConnId}
    {e : String} (h : (rejectRoute st id name conn).err = some e) :
    (rejectRoute st id name conn).st = st ∧ (rejectRoute st id name conn).out = [] := by
  unfold rejectRoute at h ⊢
  by_cases h1 : id = ""
  · rw [if_pos h1]
    exact ⟨rfl, rfl⟩
  · rw [if_neg h1] at h ⊢
    by_cases h3 : name = ""
    · rw [if_pos h3]
      exact ⟨rfl, rfl⟩
    · rw [if_neg h3] at h ⊢
      cases hlk : lookup st id
      · exact ⟨rfl, rfl⟩
      · cases hfn : findUserByName st name
        · exact ⟨rfl, rfl⟩
        · simp [hlk, hfn] at h

theorem waitRoute_err_frame {st : Registry} {id : String} {conn : ConnId} {e : String}
    (h : (waitRoute st id conn).err = some e) :
    (waitRoute st id conn).st = st ∧ (waitRoute st id conn).out = [] := by
  unfold waitRoute at h ⊢
  by_cases h1 : id = ""
  · rw [if_pos h1]
    exact ⟨rfl, rfl⟩
  · rw [if_neg h1] at h ⊢
    cases hlk : lookup st id
    · exact ⟨rfl, rfl⟩
    · rename_i u
      simp only [hlk] at h
      by_cases hq : u.queue.isEmpty <;> simp [hq] at h

theorem runRoute_err_frame (st : Registry) (op : Op) {e : String}
    (h : (runRoute st op).err = some e) :
    (runRoute st op).st = st ∧ (runRoute st op).out = [] := by
  cases op with
  | register idArg fresh rawName time conn => exact registerRoute_err_frame h
  | unregister id conn => exact unregisterRoute_err_frame h
  | offer id offer name conn => exact offerRoute_err_frame h
  | answer id answer name conn => exact answerRoute_err_frame h
  | reject id name conn => exact rejectRoute_err_frame h
  | wait id conn => exact waitRoute_err_frame h

/-- C4: in every registry state reachable from the empty registry by any
sequence of the six directory operations, no user simultaneously holds a
non-empty queue and a parked long-poll connection; and whenever a message
is enqueued to a user with a parked slot, `sendMessage` drains the entire
queue into that slot as one batch and clears both the queue and the slot. -/
theorem C4_queue_slot_exclusive :
    (∀ ops : List Op, InvQS (runOps ops)) ∧
    (∀ (st : Registry) (uid : String) (d : Data) (u : User) (c : ConnId),
      lookup st uid = some u → u.conn = some c →
      (sendMessage st uid d).2 = [⟨c, RespBody.messages (u.queue ++ [d])⟩] ∧
      lookup (sendMessage st uid d).1 uid = some { u with queue := [], conn := none }) := by
  constructor
  · exact runOps_InvQS
  · intro st uid d u c hu hc
    rw [sendMessage_eq_of_connSome hu hc]
    refine ⟨rfl, ?_⟩
    rw [lookup_updateUser_self (by intro v hv; rfl), hu]
    rfl

/-- Witness for C4 at concrete inputs: the reachable-state invariant after
a register/wait/offer sequence, and an explicit drain of a two-message
queue into a parked slot. -/
theorem C4_queue_slot_exclusive_witness :
    InvQS (runOps [Op.register "" "a" "alice" 0 1, Op.register "" "b" "bob" 0 2,
      Op.wait "a" 3, Op.offer "b" "sdp" "alice" 4]) ∧
    (sendMessage [⟨"u", "ursula", 0, [Data.rejectMsg "m"], some 7⟩] "u"
        (Data.offerMsg "s" "n")).2 =
      [⟨7, RespBody.messages ([Data.rejectMsg "m"] ++ [Data.offerMsg "s" "n"])⟩] :=
  ⟨C4_queue_slot_exclusive.1 _,
   (C4_queue_slot_exclusive.2 [⟨"u", "ursula", 0, [Data.rejectMsg "m"], some 7⟩] "u"
      (Data.offerMsg "s" "n") ⟨"u", "ursula", 0, [Data.rejectMsg "m"], some 7⟩ 7
      (by decide) (by decide)).1⟩

/-- C6: registering a name already held by a different id fails with the
BadRequest "user name already in use" and leaves the registry and output
stream untouched; and, in general, whenever any of the six directory
operations throws an error, the registry is unchanged and no response has
been written (validation precedes every side effect). -/
theorem C6_failfast_no_side_effects :
    (∀ (st : Registry) (idArg fresh rawName : String) (time : Nat) (conn : ConnId),
      jsTrim rawName ≠ "" →
      (∃ v ∈ st, v.name = jsTrim rawName ∧ v.id ≠ (if idArg = "" then fresh else idArg)) →
      registerRoute st idArg fresh rawName time conn =
        ⟨st, [], some "user name already in use"⟩) ∧
    (∀ (st : Registry) (op : Op) (e : String), (runRoute st op).err = some e →
      (runRoute st op).st = st ∧ (runRoute st op).out = []) := by
  constructor
  · intro st idArg fresh rawName time conn hname hconf
    unfold registerRoute
    rw [if_neg hname]
    simp only
    rw [if_pos]
    rw [List.any_eq_true]
    rcases hconf with ⟨v, hv, hn, hi⟩
    refine ⟨v, hv, ?_⟩
    rw [Bool.and_eq_true, beq_iff_eq, bne_iff_ne]
    exact ⟨hn, Ne.symm hi⟩
  · intro st op e h
    exact runRoute_err_frame st op h

/-- Witness for C6: a concrete conflicting registration (renaming id "a"
to the name held by id "b") is rejected without side effects, and a
concrete failing wait leaves the registry unchanged. -/
theorem C6_failfast_no_side_effects_witness :
    registerRoute [⟨"a", "alice", 0, [], none⟩, ⟨"b", "bob", 0, [], none⟩] "a" "f" "bob" 1 5 =
      ⟨[⟨"a", "alice", 0, [], none⟩, ⟨"b", "bob", 0, [], none⟩], [],
       some "user name already in use"⟩ ∧
    ((runRoute [] (Op.wait "ghost" 3)).st = [] ∧ (runRoute [] (Op.wait "ghost" 3)).out = []) :=
  ⟨C6_failfast_no_side_effects.1 [⟨"a", "alice", 0, [], none⟩, ⟨"b", "bob", 0, [], none⟩]
      "a" "f" "bob" 1 5 (by decide)
      ⟨⟨"b", "bob", 0, [], none⟩, by decide, by decide, by decide⟩,
   C6_failfast_no_side_effects.2 [] (Op.wait "ghost" 3) "user not found" (by decide)⟩

/-- C5: `wait` on a user whose queue holds the messages `u.queue ≠ []`
responds immediately to the caller with exactly that batch, in order, and
empties the queue (touching nothing else of the record); an immediately
following `wait` then finds the queue empty, returns nothing to its
caller, and parks its connection as the user's single pending slot. -/
theorem C5_wait_drains_in_order (st : Registry) (id : String) (u : User) (c1 c2 : ConnId)
    (hid : id ≠ "") (hu : lookup st id = some u) (hq : ¬u.queue = []) :
    waitRoute st id c1 =
      ⟨updateUser st id (fun v => { v with queue := [] }),
       [⟨c1, RespBody.messages u.queue⟩], none⟩ ∧
    lookup (waitRoute st id c1).st id = some { u with queue := [] } ∧
    (waitRoute (waitRoute st id c1).st id c2).err = none ∧
    lookup (waitRoute (waitRoute st id c1).st id c2).st id =
      some { u with queue := [], conn := some c2 } ∧
    (waitRoute (waitRoute st id c1).st id c2).out =
      (match u.conn with
       | some c0 => [⟨c0, RespBody.empty⟩]
       | none => []) := by
  have hfirst : waitRoute st id c1 =
      ⟨updateUser st id (fun v => { v with queue := [] }),
       [⟨c1, RespBody.messages u.queue⟩], none⟩ := by
    unfold waitRoute
    rw [if_neg hid, hu]
    simp only
    rw [if_neg (by simpa [List.isEmpty_iff] using hq)]
  have hlk1 : lookup (waitRoute st id c1).st id = some { u with queue := [] } := by
    rw [hfirst]
    simp only
    rw [lookup_updateUser_self (by intro v hv; rfl), hu]
    rfl
  have hgen : ∀ (s : Registry) (uu : User), lookup s id = some uu → uu.queue = [] →
      waitRoute s id c2 =
        ⟨updateUser s id (fun v => { v with conn := some c2 }),
         (match uu.conn with
          | some c0 => [⟨c0, RespBody.empty⟩]
          | none => []), none⟩ := by
    intro s uu hlu hque
    unfold waitRoute
    rw [if_neg hid, hlu]
    simp only
    rw [if_pos (by simp [List.isEmpty_iff, hque])]
  have hsecond : waitRoute (waitRoute st id c1).st id c2 =
      ⟨updateUser (waitRoute st id c1).st id (fun v => { v with conn := some c2 }),
       (match u.conn with
        | some c0 => [⟨c0, RespBody.empty⟩]
        | none => []), none⟩ :=
    hgen (waitRoute st id c1).st { u with queue := [] } hlk1 rfl
  refine ⟨hfirst, hlk1, ?_, ?_, ?_⟩
  · rw [hsecond]
  · rw [hsecond]
    simp only
    rw [lookup_updateUser_self (by intro v hv; rfl), hlk1]
    rfl
  · rw [hsecond]

/-- Witness for C5: a user with two queued messages receives exactly both,
in insertion order, and the follow-up wait parks connection 2. -/
theorem C5_wait_drains_in_order_witness :
    waitRoute [⟨"a", "alice", 0, [Data.rejectMsg "x", Data.offerMsg "s" "bob"], none⟩] "a" 1 =
      ⟨[⟨"a", "alice", 0, [], none⟩],
       [⟨1, RespBody.messages [Data.rejectMsg "x", Data.offerMsg "s" "bob"]⟩], none⟩ ∧
    lookup (waitRoute (waitRoute
        [⟨"a", "alice", 0, [Data.rejectMsg "x", Data.offerMsg "s" "bob"], none⟩] "a" 1).st
        "a" 2).st "a" = some ⟨"a", "alice", 0, [], some 2⟩ := by
  have h := C5_wait_drains_in_order
    [⟨"a", "alice", 0, [Data.rejectMsg "x", Data.offerMsg "s" "bob"], none⟩] "a"
    ⟨"a", "alice", 0, [Data.rejectMsg "x", Data.offerMsg "s" "bob"], none⟩ 1 2
    (by decide) (by decide) (by decide)
  refine ⟨?_, ?_⟩
  · rw [h.1]
    decide
  · rw [h.2.2.2.1]

/-- C9: the root route scans the `dataRoutes_` keys in their fixed
insertion order (register, unregister, offer, answer, reject, wait) and
dispatches the first recognized key present on the request, so with
several keys present exactly the minimal-priority one executes; with no
recognized key it throws "unknown request parameters". -/
theorem C9_first_key_priority :
    (∀ (q : Request) (k : OpKey), rootRouteSelect q = Except.ok k →
      hasKey q k = true ∧ ∀ k', hasKey q k' = true → keyPrio k ≤ keyPrio k') ∧
    (∀ q : Request, (∀ k, hasKey q k = false) →
      rootRouteSelect q = Except.error "unknown request parameters") := by
  constructor
  · intro q k h
    unfold rootRouteSelect chooseOp at h
    by_cases h1 : q.register.isSome
    · rw [if_pos h1] at h
      injection h with h
      subst h
      refine ⟨h1, ?_⟩
      intro k' _
      cases k' <;> decide
    · rw [if_neg h1] at h
      by_cases h2 : q.unregister.isSome
      · rw [if_pos h2] at h
        injection h with h
        subst h
        refine ⟨h2, ?_⟩
        intro k' hk'
        cases k' with
        | register => exact absurd hk' h1
        | unregister => decide
        | offer => decide
        | answer => decide
        | reject => decide
        | wait => decide
      · rw [if_neg h2] at h
        by_cases h3 : q.offer.isSome
        · rw [if_pos h3] at h
          injection h with h
          subst h
          refine ⟨h3, ?_⟩
          intro k' hk'
          cases k' with
          | register => exact absurd hk' h1
          | unregister => exact absurd hk' h2
          | offer => decide
          | answer => decide
          | reject => decide
          | wait => decide
        · rw [if_neg h3] at h
          by_cases h4 : q.answer.isSome
          · rw [if_pos h4] at h
            injection h with h
            subst h
            refine ⟨h4, ?_⟩
            intro k' hk'
            cases k' with
            | register => exact absurd hk' h1
            | unregister => exact absurd hk' h2
            | offer => exact absurd hk' h3
            | answer => decide
            | reject => decide
            | wait => decide
          · rw [if_neg h4] at h
            by_cases h5 : q.reject.isSome
            · rw [if_pos h5] at h
              injection h with h
              subst h
              refine ⟨h5, ?_⟩
              intro k' hk'
              cases k' with
              | register => exact absurd hk' h1
              | unregister => exact absurd hk' h2
              | offer => exact absurd hk' h3
              | answer => exact absurd hk' h4
              | reject => decide
              | wait => decide
            · rw [if_neg h5] at h
              by_cases h6 : q.wait.isSome
              · rw [if_pos h6] at h
                injection h with h
                subst h
                refine ⟨h6, ?_⟩
                intro k' hk'
                cases k' with
                | register => exact absurd hk' h1
                | unregister => exact absurd hk' h2
                | offer => exact absurd hk' h3
                | answer => exact absurd hk' h4
                | reject => exact absurd hk' h5
                | wait => decide
              · rw [if_neg h6] at h
                exact Except.noConfusion h
  · intro q hq
    have g1 : q.register.isSome = false := hq OpKey.register
    have g2 : q.unregister.isSome = false := hq OpKey.unregister
    have g3 : q.offer.isSome = false := hq OpKey.offer
    have g4 : q.answer.isSome = false := hq OpKey.answer
    have g5 : q.reject.isSome = false := hq OpKey.reject
    have g6 : q.wait.isSome = false := hq OpKey.wait
    unfold rootRouteSelect chooseOp
    rw [if_neg (by simp [g1]), if_neg (by simp [g2]), if_neg (by simp [g3]),
        if_neg (by simp [g4]), if_neg (by simp [g5]), if_neg (by simp [g6])]

/-- Witness for C9: a request carrying both `offer` and `wait` dispatches
`offer` (the earlier key), and the empty request errors out. -/
theorem C9_first_key_priority_witness :
    (hasKey ⟨none, none, some "sdp", none, none, some "w"⟩ OpKey.offer = true ∧
     keyPrio OpKey.offer ≤ keyPrio OpKey.wait) ∧
    rootRouteSelect ⟨none, none, none, none, none, none⟩ =
      Except.error "unknown request parameters" :=
  ⟨⟨(C9_first_key_priority.1 ⟨none, none, some "sdp", none, none, some "w"⟩ OpKey.offer rfl).1,
    (C9_first_key_priority.1 ⟨none, none, some "sdp", none, none, some "w"⟩ OpKey.offer rfl).2
      OpKey.wait (by decide)⟩,
   C9_first_key_priority.2 ⟨none, none, none, none, none, none⟩ (by intro k; cases k <;> rfl)⟩

/-- C8: `unregister` of an id absent from the registry is a pure no-op
answered with empty success (idempotent).  For a registered id it removes
exactly that user, answers that user's parked long-poll (if any) with an
empty response, relays `{unregister, all_users}` to every remaining user
(into the queue, or as an immediate batch to a parked slot), and finally
answers the caller with empty success. -/
theorem C8_unregister_idempotent_and_broadcast (st : Registry) (id : String) (conn : ConnId)
    (hwf : WF st) (hid : id ≠ "") :
    (lookup st id = none →
      unregisterRoute st id conn = ⟨st, [⟨conn, RespBody.empty⟩], none⟩) ∧
    (∀ u, lookup st id = some u →
      (unregisterRoute st id conn).err = none ∧
      lookup (unregisterRoute st id conn).st id = none ∧
      (unregisterRoute st id conn).out.getLast? = some ⟨conn, RespBody.empty⟩ ∧
      (∀ c, u.conn = some c → (⟨c, RespBody.empty⟩ : Output) ∈ (unregisterRoute st id conn).out) ∧
      (∀ v ∈ st, v.id ≠ id → v.conn = none →
        lookup (unregisterRoute st id conn).st v.id =
          some { v with queue := v.queue ++ [unregisterData st id u] }) ∧
      (∀ v ∈ st, v.id ≠ id → ∀ c, v.conn = some c →
        lookup (unregisterRoute st id conn).st v.id =
            some { v with queue := [], conn := none } ∧
        (⟨c, RespBody.messages (v.queue ++ [unregisterData st id u])⟩ : Output) ∈
          (unregisterRoute st id conn).out)) := by
  constructor
  · intro h
    unfold unregisterRoute
    rw [if_neg hid, h]
  · intro u hu
    have hroute : unregisterRoute st id conn =
        ⟨(sendToList (st.filter (fun v => v.id != id))
            (idsOf (st.filter (fun v => v.id != id))) (unregisterData st id u) (some id)).1,
         (match u.conn with
          | some c => [⟨c, RespBody.empty⟩]
          | none => []) ++
           (sendToList (st.filter (fun v => v.id != id))
             (idsOf (st.filter (fun v => v.id != id))) (unregisterData st id u) (some id)).2 ++
           [⟨conn, RespBody.empty⟩], none⟩ := by
      unfold unregisterRoute
      rw [if_neg hid, hu]
      rfl
    have hwf1 : WF (st.filter (fun v => v.id != id)) := WF_filter _ hwf
    refine ⟨by rw [hroute], ?_, ?_, ?_, ?_, ?_⟩
    · rw [hroute]
      simp only
      rw [sendToList_lookup_skip (Or.inr rfl)]
      rw [lookup_eq_none_iff]
      intro w hw
      have := (List.mem_filter.mp hw).2
      simpa using this
    · rw [hroute]
      simp only
      rw [List.getLast?_concat]
    · intro c hc
      rw [hroute]
      simp only
      rw [hc]
      exact List.mem_append_left _ (List.mem_append_left _ (List.mem_singleton.mpr rfl))
    · intro v hv hne hconn
      rw [hroute]
      simp only
      have hvmem : v ∈ st.filter (fun w => w.id != id) :=
        List.mem_filter.mpr ⟨hv, by simpa using hne⟩
      refine sendToList_deliver_connNone hwf1 ?_ ?_ (lookup_filter_ne hwf hv hne) hconn
      · exact List.mem_map_of_mem (fun w => w.id) hvmem
      · simpa using hne
    · intro v hv hne c hconn
      rw [hroute]
      simp only
      have hvmem : v ∈ st.filter (fun w => w.id != id) :=
        List.mem_filter.mpr ⟨hv, by simpa using hne⟩
      have h : lookup (sendToList (st.filter (fun w => w.id != id))
            (idsOf (st.filter (fun w => w.id != id))) (unregisterData st id u) (some id)).1 v.id =
            some { v with queue := [], conn := none } ∧
          (⟨c, RespBody.messages (v.queue ++ [unregisterData st id u])⟩ : Output) ∈
            (sendToList (st.filter (fun w => w.id != id))
              (idsOf (st.filter (fun w => w.id != id))) (unregisterData st id u) (some id)).2 :=
        sendToList_deliver_connSome hwf1 (List.mem_map_of_mem (fun w => w.id) hvmem)
          (by simpa using hne) (lookup_filter_ne hwf hv hne) hconn
      exact ⟨h.1, List.mem_append_left _ (List.mem_append_right _ h.2)⟩

/-- Witness for C8 on a two-user registry: unregistering an absent id is a
no-op, and unregistering "b" (whose slot is connection 7) flushes that
slot, removes "b", and relays the event to the remaining user "a". -/
theorem C8_unregister_idempotent_and_broadcast_witness :
    unregisterRoute [⟨"a", "alice", 0, [], none⟩, ⟨"b", "bob", 0, [], some 7⟩] "ghost" 5 =
      ⟨[⟨"a", "alice", 0, [], none⟩, ⟨"b", "bob", 0, [], some 7⟩],
       [⟨5, RespBody.empty⟩], none⟩ ∧
    lookup (unregisterRoute [⟨"a", "alice", 0, [], none⟩, ⟨"b", "bob", 0, [], some 7⟩]
        "b" 5).st "b" = none ∧
    (⟨7, RespBody.empty⟩ : Output) ∈
      (unregisterRoute [⟨"a", "alice", 0, [], none⟩, ⟨"b", "bob", 0, [], some 7⟩] "b" 5).out ∧
    lookup (unregisterRoute [⟨"a", "alice", 0, [], none⟩, ⟨"b", "bob", 0, [], some 7⟩]
        "b" 5).st "a" =
      some ⟨"a", "alice", 0,
        [unregisterData [⟨"a", "alice", 0, [], none⟩, ⟨"b", "bob", 0, [], some 7⟩] "b"
          ⟨"b", "bob", 0, [], some 7⟩], none⟩ := by
  have h1 := (C8_unregister_idempotent_and_broadcast
    [⟨"a", "alice", 0, [], none⟩, ⟨"b", "bob", 0, [], some 7⟩] "ghost" 5
    (by unfold WF idsOf; decide) (by decide)).1 (by decide)
  have h2 := (C8_unregister_idempotent_and_broadcast
    [⟨"a", "alice", 0, [], none⟩, ⟨"b", "bob", 0, [], some 7⟩] "b" 5
    (by unfold WF idsOf; decide) (by decide)).2 ⟨"b", "bob", 0, [], some 7⟩ (by decide)
  refine ⟨h1, h2.2.1, h2.2.2.2.1 7 rfl, ?_⟩
  have h3 := h2.2.2.2.2.1 ⟨"a", "alice", 0, [], none⟩ (by decide) (by decide) rfl
  exact h3

/-- C10: the `all_users` list embedded in the unregister broadcast is the
remaining registry mapped in key (insertion) order with no sorting step —
on a registry inserted as zoe, anna, bob, removing bob broadcasts
`[zoe, anna]` — whereas register's list for the same names is sorted
case-insensitively (`[anna, zoe]`). -/
theorem C10_unregister_users_unsorted (st : Registry) (id : String) (u : User) (conn : ConnId)
    (hwf : WF st) (hid : id ≠ "") (hu : lookup st id = some u) :
    (∀ v ∈ st, v.id ≠ id → v.conn = none →
      lookup (unregisterRoute st id conn).st v.id =
        some { v with queue := v.queue ++
          [Data.unregisterEvt { name := u.name, old_name := none }
            ((st.filter (fun w => w.id != id)).map
              (fun w => ({ name := w.name, old_name := none } : PublicUser)))] }) ∧
    (([⟨"z", "zoe", 0, [], none⟩, ⟨"x", "anna", 0, [], none⟩,
        ⟨"b", "bob", 0, [], none⟩] : Registry).filter (fun w => w.id != "b")).map
        (fun w => ({ name := w.name, old_name := none } : PublicUser)) =
      [⟨"zoe", none⟩, ⟨"anna", none⟩] ∧
    sortUsersByName [⟨"zoe", none⟩, ⟨"anna", none⟩] = [⟨"anna", none⟩, ⟨"zoe", none⟩] ∧
    (registerRoute [⟨"z", "zoe", 0, [], none⟩] "" "x" "anna" 1 2).out =
      [⟨2, RespBody.registerResp ⟨"x", "anna", none⟩
        [⟨"anna", none⟩, ⟨"zoe", none⟩]⟩] := by
  refine ⟨?_, by decide, by decide, by decide⟩
  intro v hv hne hconn
  have hroute : unregisterRoute st id conn =
      ⟨(sendToList (st.filter (fun w => w.id != id))
          (idsOf (st.filter (fun w => w.id != id))) (unregisterData st id u) (some id)).1,
       (match u.conn with
        | some c => [⟨c, RespBody.empty⟩]
        | none => []) ++
         (sendToList (st.filter (fun w => w.id != id))
           (idsOf (st.filter (fun w => w.id != id))) (unregisterData st id u) (some id)).2 ++
         [⟨conn, RespBody.empty⟩], none⟩ := by
    unfold unregisterRoute
    rw [if_neg hid, hu]
    rfl
  rw [hroute]
  simp only
  have hvmem : v ∈ st.filter (fun w => w.id != id) :=
    List.mem_filter.mpr ⟨hv, by simpa using hne⟩
  refine sendToList_deliver_connNone (WF_filter _ hwf) ?_ ?_
    (lookup_filter_ne hwf hv hne) hconn
  · exact List.mem_map_of_mem (fun w => w.id) hvmem
  · simpa using hne

/-- Witness for C10: on the registry inserted as zoe, anna, bob, removing
bob hands zoe the broadcast whose user list is `[zoe, anna]` — insertion
order, not the sorted order register would produce. -/
theorem C10_unregister_users_unsorted_witness :
    lookup (unregisterRoute [⟨"z", "zoe", 0, [], none⟩, ⟨"x", "anna", 0, [], none⟩,
        ⟨"b", "bob", 0, [], none⟩] "b" 9).st "z" =
      some ⟨"z", "zoe", 0,
        [Data.unregisterEvt ⟨"bob", none⟩ [⟨"zoe", none⟩, ⟨"anna", none⟩]], none⟩ := by
  have h := (C10_unregister_users_unsorted
    [⟨"z", "zoe", 0, [], none⟩, ⟨"x", "anna", 0, [], none⟩, ⟨"b", "bob", 0, [], none⟩]
    "b" ⟨"b", "bob", 0, [], none⟩ 9 (by unfold WF idsOf; decide) (by decide) (by decide)).1
    ⟨"z", "zoe", 0, [], none⟩ (by decide) (by decide) rfl
  rw [h]
  decide

/-- C1: in `server.js` the broadcast fan-out (`continue` past the
excluded id) delivers to every other registered user, but the
`intercom_server.js` variant (`return` at the excluded id) aborts the
whole loop there: renaming user "a" — the first registry key — is
broadcast to nobody, so "b" never learns of the rename, contradicting the
claim that every non-excluded user is enqueued-and-delivered.  Shown: the
intercom variant's register leaves "b"'s queue empty and emits only the
caller's response, its `sendMessageToAll` with the first id excluded is a
complete no-op, while `server.js`'s register delivers the rename event to
"b". -/
theorem C1_broadcast_return_aborts_fanout :
    registerRoute_intercom [⟨"a", "alice", 0, [], none⟩, ⟨"b", "bob", 0, [], none⟩]
        "a" "f" "anna" 1 9 =
      ⟨[⟨"a", "anna", 1, [], none⟩, ⟨"b", "bob", 0, [], none⟩],
       [⟨9, RespBody.registerResp ⟨"a", "anna", none⟩
          [⟨"alice", none⟩, ⟨"anna", none⟩, ⟨"bob", none⟩]⟩], none⟩ ∧
    sendMessageToAll_intercom [⟨"a", "alice", 0, [], none⟩, ⟨"b", "bob", 0, [], none⟩]
        (Data.rejectMsg "x") (some "a") =
      ([⟨"a", "alice", 0, [], none⟩, ⟨"b", "bob", 0, [], none⟩], []) ∧
    lookup (registerRoute [⟨"a", "alice", 0, [], none⟩, ⟨"b", "bob", 0, [], none⟩]
        "a" "f" "anna" 1 9).st "b" =
      some ⟨"b", "bob", 0,
        [Data.registerEvt ⟨"anna", some "alice"⟩
          [⟨"anna", some "alice"⟩, ⟨"bob", none⟩]], none⟩ := by
  decide

/-- C2: `server.js`'s `wait` answers a previously parked long-poll with an
empty body before installing the new connection, but the
`intercom_server.js` variant silently overwrites `user.connection`: the
prior response (connection 1) is never fulfilled and hangs, contradicting
the claim that the prior slot is first fulfilled with an empty batch.
Both variants keep at most one pending slot (a single field). -/
theorem C2_wait_overwrites_slot_without_reply :
    waitRoute_intercom [⟨"a", "alice", 0, [], some 1⟩] "a" 2 =
      ⟨[⟨"a", "alice", 0, [], some 2⟩], [], none⟩ ∧
    waitRoute [⟨"a", "alice", 0, [], some 1⟩] "a" 2 =
      ⟨[⟨"a", "alice", 0, [], some 2⟩], [⟨1, RespBody.empty⟩], none⟩ := by
  decide

/-- C3: `server.js` checks the requested name against every OTHER id, so
renaming "a" to the name held by "b" fails and the registry keeps
pairwise-distinct names; the `intercom_server.js` variant runs the
duplicate-name scan only for new ids, so the same rename succeeds and
leaves two registered users both named "bob", violating the uniqueness
invariant the claim states. -/
theorem C3_rename_steals_taken_name :
    (registerRoute_intercom [⟨"a", "alice", 0, [], none⟩, ⟨"b", "bob", 0, [], none⟩]
        "a" "f" "bob" 1 9).err = none ∧
    ((registerRoute_intercom [⟨"a", "alice", 0, [], none⟩, ⟨"b", "bob", 0, [], none⟩]
        "a" "f" "bob" 1 9).st.map (fun u => u.name)) = ["bob", "bob"] ∧
    registerRoute [⟨"a", "alice", 0, [], none⟩, ⟨"b", "bob", 0, [], none⟩]
        "a" "f" "bob" 1 9 =
      ⟨[⟨"a", "alice", 0, [], none⟩, ⟨"b", "bob", 0, [], none⟩], [],
       some "user name already in use"⟩ := by
  decide

/-- C7: in `server.js`, re-registering id "a" under a new unused name
keeps its id, queue and parked slot, the caller's response and the
broadcast to "b" both carry `old_name`, and re-asserting the unchanged
name broadcasts nothing.  The `intercom_server.js` variant never computes
`old_name` (response and broadcast omit it, and its users list even
duplicates the renaming user) and broadcasts unconditionally, delivering
a register event to "b" although the name did not change. -/
theorem C7_rename_frame_old_name_and_broadcast :
    (registerRoute [⟨"a", "alice", 0, [Data.rejectMsg "m"], some 9⟩,
        ⟨"b", "bob", 0, [], none⟩] "a" "f" "anna" 1 5).out.head? =
      some ⟨5, RespBody.registerResp ⟨"a", "anna", some "alice"⟩
        [⟨"anna", some "alice"⟩, ⟨"bob", none⟩]⟩ ∧
    lookup (registerRoute [⟨"a", "alice", 0, [Data.rejectMsg "m"], some 9⟩,
        ⟨"b", "bob", 0, [], none⟩] "a" "f" "anna" 1 5).st "a" =
      some ⟨"a", "anna", 1, [Data.rejectMsg "m"], some 9⟩ ∧
    lookup (registerRoute [⟨"a", "alice", 0, [Data.rejectMsg "m"], some 9⟩,
        ⟨"b", "bob", 0, [], none⟩] "a" "f" "anna" 1 5).st "b" =
      some ⟨"b", "bob", 0,
        [Data.registerEvt ⟨"anna", some "alice"⟩
          [⟨"anna", some "alice"⟩, ⟨"bob", none⟩]], none⟩ ∧
    lookup (registerRoute [⟨"b", "bob", 0, [], none⟩, ⟨"a", "alice", 0, [], none⟩]
        "a" "f" "alice" 1 5).st "b" = some ⟨"b", "bob", 0, [], none⟩ ∧
    (registerRoute_intercom [⟨"a", "alice", 0, [Data.rejectMsg "m"], some 9⟩,
        ⟨"b", "bob", 0, [], none⟩] "a" "f" "anna" 1 5).out.head? =
      some ⟨5, RespBody.registerResp ⟨"a", "anna", none⟩
        [⟨"alice", none⟩, ⟨"anna", none⟩, ⟨"bob", none⟩]⟩ ∧
    lookup (registerRoute_intercom [⟨"b", "bob", 0, [], none⟩,
        ⟨"a", "alice", 0, [], none⟩] "a" "f" "alice" 1 5).st "b" =
      some ⟨"b", "bob", 0,
        [Data.registerEvt ⟨"alice", none⟩
          [⟨"alice", none⟩, ⟨"alice", none⟩, ⟨"bob", none⟩]], none⟩ := by
  decide

theorem sendMessageToAll_excluded_untouched {st : Registry} {d : Data} {uid : String} :
    lookup (sendMessageToAll st d (some uid)).1 uid = lookup st uid :=
  sendToList_lookup_skip (Or.inr rfl)

/-- Supporting C1 generally for `server.js`: its `continue`-style
broadcast enqueues the payload for EVERY registered user other than the
excluded one — appended to the queue when no slot is parked, or shipped
at once as the final element of the batch fulfilling a parked slot. -/
theorem sendMessageToAll_reaches_all_others {st : Registry} {d : Data} {ex : Option String}
    {uid : String} {u : User} (hwf : WF st) (hu : lookup st uid = some u)
    (hex : some uid ≠ ex) :
    (u.conn = none →
      lookup (sendMessageToAll st d ex).1 uid = some { u with queue := u.queue ++ [d] }) ∧
    (∀ c, u.conn = some c →
      lookup (sendMessageToAll st d ex).1 uid = some { u with queue := [], conn := none } ∧
      (⟨c, RespBody.messages (u.queue ++ [d])⟩ : Output) ∈ (sendMessageToAll st d ex).2) := by
  have hmem : uid ∈ idsOf st := by
    rcases lookup_eq_some hu with ⟨hm, hi⟩
    exact hi ▸ List.mem_map_of_mem (fun w => w.id) hm
  constructor
  · intro hc
    exact sendToList_deliver_connNone hwf hmem hex hu hc
  · intro c hc
    exact sendToList_deliver_connSome hwf hmem hex hu hc

theorem pairsOf_updateUser {st : Registry} {id : String} {f : User → User}
    (hf : ∀ v, v.id = id → (f v).id = v.id ∧ (f v).name = v.name) :
    pairsOf (updateUser st id f) = pairsOf st := by
  unfold pairsOf updateUser
  rw [List.map_map]
  apply List.map_congr_left
  intro v _
  by_cases h : v.id = id
  · simp [h, (hf v h).1, (hf v h).2]
  · simp [h]

theorem pairsOf_sendMessage {st : Registry} {uid : String} {d : Data} :
    pairsOf (sendMessage st uid d).1 = pairsOf st := by
  cases hlk : lookup st uid with
  | none => rw [sendMessage_eq_of_none hlk]
  | some u =>
    cases hc : u.conn with
    | none =>
      rw [sendMessage_eq_of_connNone hlk hc]
      exact pairsOf_updateUser (by intro v hv; exact ⟨rfl, rfl⟩)
    | some c =>
      rw [sendMessage_eq_of_connSome hlk hc]
      exact pairsOf_updateUser (by intro v hv; exact ⟨rfl, rfl⟩)

theorem pairsOf_sendToList {ids : List String} {st : Registry} {d : Data}
    {ex : Option String} : pairsOf (sendToList st ids d ex).1 = pairsOf st := by
  induction ids generalizing st with
  | nil => rfl
  | cons a rest ih =>
    unfold sendToList
    by_cases h : some a = ex
    · rw [if_pos h]
      exact ih
    · rw [if_neg h]
      simp only
      rw [ih, pairsOf_sendMessage]

theorem NamesUnique_of_pairsOf_eq {st st' : Registry}
    (h : pairsOf st' = pairsOf st) (hnu : NamesUnique st) : NamesUnique st' := by
  intro v hv w hw hne
  have hv' : (v.id, v.name) ∈ pairsOf st := h ▸ List.mem_map_of_mem _ hv
  have hw' : (w.id, w.name) ∈ pairsOf st := h ▸ List.mem_map_of_mem _ hw
  rcases List.mem_map.mp hv' with ⟨v0, hv0, hv0e⟩
  rcases List.mem_map.mp hw' with ⟨w0, hw0, hw0e⟩
  have hv1 : v0.id = v.id := by simpa using congrArg Prod.fst hv0e
  have hv2 : v0.name = v.name := by simpa using congrArg Prod.snd hv0e
  have hw1 : w0.id = w.id := by simpa using congrArg Prod.fst hw0e
  have hw2 : w0.name = w.name := by simpa using congrArg Prod.snd hw0e
  have := hnu v0 hv0 w0 hw0 (by rw [hv1, hw1]; exact hne)
  rw [hv2, hw2] at this
  exact this

theorem NamesUnique_upsert {st : Registry} {id : String} {u : User}
    (hnu : NamesUnique st) (hid : u.id = id)
    (hchk : ∀ v ∈ st, v.name = u.name → v.id = id) :
    NamesUnique (upsert st id u) := by
  intro v hv w hw hne
  rcases mem_upsert hv with hv1 | rfl <;> rcases mem_upsert hw with hw1 | rfl
  · exact hnu v hv1 w hw1 hne
  · intro he
    exact hne ((hchk v hv1 he).trans hid.symm)
  · intro he
    exact hne (hid.trans (hchk w hw1 he.symm).symm)
  · exact absurd rfl hne

theorem NamesUnique_filter {st : Registry} (p : User → Bool)
    (hnu : NamesUnique st) : NamesUnique (st.filter p) :=
  fun v hv w hw hne =>
    hnu v (List.mem_of_mem_filter hv) w (List.mem_of_mem_filter hw) hne

theorem NamesUnique_ifBroadcast {st1 : Registry} {d : Data} {ex : Option String} {b : Bool}
    (hnu1 : NamesUnique st1) :
    NamesUnique (if b then sendMessageToAll st1 d ex else (st1, [])).1 := by
  cases b with
  | false => exact hnu1
  | true =>
    simp only [if_true]
    exact NamesUnique_of_pairsOf_eq pairsOf_sendToList hnu1

theorem registerRoute_NamesUnique {st : Registry} {idArg fresh rawName : String}
    {time : Nat} {conn : ConnId} (hnu : NamesUnique st) :
    NamesUnique (registerRoute st idArg fresh rawName time conn).st := by
  unfold registerRoute
  by_cases h1 : jsTrim rawName = ""
  · rw [if_pos h1]
    exact hnu
  · rw [if_neg h1]
    simp only
    by_cases h2 : st.any fun v =>
        v.name == jsTrim rawName && (if idArg = "" then fresh else idArg) != v.id
    · rw [if_pos h2]
      exact hnu
    · rw [if_neg h2]
      simp only
      have hchk : ∀ v ∈ st, v.name = jsTrim rawName →
          v.id = (if idArg = "" then fresh else idArg) := by
        intro v hv hname
        by_contra hne
        apply h2
        rw [List.any_eq_true]
        refine ⟨v, hv, ?_⟩
        rw [Bool.and_eq_true, beq_iff_eq, bne_iff_ne]
        exact ⟨hname, Ne.symm hne⟩
      cases hlk : lookup st (if idArg = "" then fresh else idArg) with
      | none =>
        exact NamesUnique_ifBroadcast (NamesUnique_upsert hnu rfl hchk)
      | some u0 =>
        exact NamesUnique_ifBroadcast
          (NamesUnique_upsert hnu (lookup_eq_some hlk).2 hchk)

theorem unregisterRoute_NamesUnique {st : Registry} {id : String} {conn : ConnId}
    (hnu : NamesUnique st) : NamesUnique (unregisterRoute st id conn).st := by
  unfold unregisterRoute
  by_cases h1 : id = ""
  · rw [if_pos h1]
    exact hnu
  · rw [if_neg h1]
    cases hlk : lookup st id with
    | none => exact hnu
    | some u =>
      simp only
      exact NamesUnique_of_pairsOf_eq pairsOf_sendToList
        (NamesUnique_filter (fun v => v.id != id) hnu)

theorem relayRoute_NamesUnique {st : Registry} {uid : String} {d : Data}
    (hnu : NamesUnique st) : NamesUnique (sendMessage st uid d).1 :=
  NamesUnique_of_pairsOf_eq pairsOf_sendMessage hnu

theorem waitRoute_NamesUnique {st : Registry} {id : String} {conn : ConnId}
    (hnu : NamesUnique st) : NamesUnique (waitRoute st id conn).st := by
  unfold waitRoute
  by_cases h1 : id = ""
  · rw [if_pos h1]
    exact hnu
  · rw [if_neg h1]
    cases hlk : lookup st id with
    | none => exact hnu
    | some u =>
      simp only
      by_cases hq : u.queue.isEmpty <;> [rw [if_pos hq]; rw [if_neg hq]] <;>
        exact NamesUnique_of_pairsOf_eq
          (pairsOf_updateUser (by intro v hv; exact ⟨rfl, rfl⟩)) hnu

theorem offerRoute_NamesUnique {st : Registry} {id offer name : String} {conn : ConnId}
    (hnu : NamesUnique st) : NamesUnique (offerRoute st id offer name conn).st := by
  unfold offerRoute
  by_cases h1 : id = ""
  · rw [if_pos h1]
    exact hnu
  · rw [if_neg h1]
    by_cases h2 : offer = ""
    · rw [if_pos h2]
      exact hnu
    · rw [if_neg h2]
      by_cases h3 : name = ""
      · rw [if_pos h3]
        exact hnu
      · rw [if_neg h3]
        cases lookup st id with
        | none => exact hnu
        | some fromUser =>
          cases findUserByName st name with
          | none => exact hnu
          | some toUser => exact relayRoute_NamesUnique hnu

theorem answerRoute_NamesUnique {st : Registry} {id answer name : String} {conn : ConnId}
    (hnu : NamesUnique st) : NamesUnique (answerRoute st id answer name conn).st := by
  unfold answerRoute
  by_cases h1 : id = ""
  · rw [if_pos h1]
    exact hnu
  · rw [if_neg h1]
    by_cases h2 : answer = ""
    · rw [if_pos h2]
      exact hnu
    · rw [if_neg h2]
      by_cases h3 : name = ""
      · rw [if_pos h3]
        exact hnu
      · rw [if_neg h3]
        cases lookup st id with
        | none => exact hnu
        | some fromUser =>
          cases findUserByName st name with
          | none => exact hnu
          | some toUser => exact relayRoute_NamesUnique hnu

theorem rejectRoute_NamesUnique {st : Registry} {id name : String} {conn : ConnId}
    (hnu : NamesUnique st) : NamesUnique (rejectRoute st id name conn).st := by
  unfold rejectRoute
  by_cases h1 : id = ""
  · rw [if_pos h1]
    exact hnu
  · rw [if_neg h1]
    by_cases h3 : name = ""
    · rw [if_pos h3]
      exact hnu
    · rw [if_neg h3]
      cases lookup st id with
      | none => exact hnu
      | some fromUser =>
        cases findUserByName st name with
        | none => exact hnu
        | some toUser => exact relayRoute_NamesUnique hnu

theorem runOp_NamesUnique {st : Registry} (op : Op) (hnu : NamesUnique st) :
    NamesUnique (runOp st op) := by
  cases op with
  | register idArg fresh rawName time conn => exact registerRoute_NamesUnique hnu
  | unregister id conn => exact unregisterRoute_NamesUnique hnu
  | wait id conn => exact waitRoute_NamesUnique hnu
  | offer id offer name conn => exact offerRoute_NamesUnique hnu
  | answer id answer name conn => exact answerRoute_NamesUnique hnu
  | reject id name conn => exact rejectRoute_NamesUnique hnu

/-- Supporting C3 for `server.js`: in every state reachable from the
empty registry by the six directory operations, no two users with
distinct ids hold the same name — server.js's other-id duplicate check
keeps the uniqueness invariant that the intercom variant breaks. -/
theorem foldl_runOp_NamesUnique (ops : List Op) :
    ∀ st : Registry, NamesUnique st → NamesUnique (ops.foldl runOp st) := by
  induction ops with
  | nil => exact fun st h => h
  | cons op ops ih =>
    intro st h
    exact ih _ (runOp_NamesUnique op h)

theorem runOps_NamesUnique (ops : List Op) : NamesUnique (runOps ops) :=
  foldl_runOp_NamesUnique ops [] (fun v hv => absurd hv (List.not_mem_nil v))

end Intercom
